import Mathlib

/-!
Verification of the ckpool-lhr stratifier specification against the
repository's source.  The C code is shallowly embedded: IEEE doubles are
modelled as exact rationals (ℚ), `int64_t` as ℤ (only comparisons and
small arithmetic occur, so no wraparound is reachable), C strings as
`List Char` (with `Option` where NULL is distinguished), and the libm
exponential as `Real.exp`.
-/

namespace CkpoolLhr

/-! ### Share difficulty selection (stratifier share pipeline,
    embedded from tests/unit/test-password-diff-job-id.c, evaluate_share_diff) -/

/-- Which difficulty a share is evaluated against. -/
inductive DiffSelection where
  | usesOldDiff
  | usesNewDiff
  deriving DecidableEq, Repr

/-- Core share evaluation logic: `(share_job_id < diff_change_job_id) ? USES_OLD_DIFF : USES_NEW_DIFF`. -/
def evaluate_share_diff (share_job_id diff_change_job_id : ℤ) : DiffSelection :=
  if share_job_id < diff_change_job_id then .usesOldDiff else .usesNewDiff

/-- Per-client difficulty state relevant to share evaluation. -/
structure ClientDiffState where
  diff : ℚ
  old_diff : ℚ
  diff_change_job_id : ℤ

/-- The difficulty value the pipeline uses for a share:
    `if (id < client->diff_change_job_id) diff = client->old_diff; else diff = client->diff`. -/
def used_share_diff (c : ClientDiffState) (job_id : ℤ) : ℚ :=
  if job_id < c.diff_change_job_id then c.old_diff else c.diff

/-! ### Zombie cleanup decision (tests/unit/test-zombie-cleanup.c) -/

/-- Registry-entry removal condition: dropped, unknown to the connector, refcount exactly 1. -/
def shouldCleanup (dropped existsInConnector : Bool) (ref : ℤ) : Bool :=
  dropped && !existsInConnector && (ref == 1)

/-- Drop-message condition: dropped but the connector still knows the id. -/
def shouldSendDrop (dropped existsInConnector : Bool) : Bool :=
  dropped && existsInConnector

/-! ### Network-difficulty floor (tests/unit/test-difficulty.c, apply_network_diff_floor,
    mirroring stratifier.c add_base) -/

/-- The clamp `if (!allow_low_diff && network_diff < 1) network_diff = 1;`. -/
def apply_network_diff_floor (raw_diff : ℚ) (allow_low_diff : Bool) : ℚ :=
  if ¬allow_low_diff ∧ raw_diff < 1 then 1 else raw_diff

/-! ### Vardiff clamp sequence (tests/unit/test-vardiff.c, test_diff_clamping) -/

/-- C truncation of a double to `int64_t` (toward zero). -/
def truncQ (x : ℚ) : ℤ :=
  if 0 ≤ x then ⌊x⌋ else -⌊-x⌋

/-- The vardiff clamping sequence from test_diff_clamping:
    `optimal = MAX(optimal, ckp->mindiff); optimal = MAX(optimal, mindiff);
    optimal = MIN(optimal, ckp->maxdiff)` (when maxdiff > 0);
    `optimal = MIN(optimal, network_diff)`. -/
def clampOptimal (optimal : ℤ) (pool_mindiff worker_mindiff pool_maxdiff network_diff : ℚ) : ℤ :=
  let o1 := max optimal (truncQ pool_mindiff)
  let o2 := max o1 (truncQ worker_mindiff)
  let o3 := if 0 < pool_maxdiff then min o2 (truncQ pool_maxdiff) else o2
  min o3 (truncQ network_diff)

/-- Clamp sequence as the claim words it: bounded below by pool and worker
    mindiff, bounded above only by pool maxdiff (when positive), with no
    network-difficulty ceiling.  Stated for comparison with `clampOptimal`. -/
def clampOptimalClaim (optimal : ℤ) (pool_mindiff worker_mindiff pool_maxdiff : ℚ) : ℤ :=
  let o1 := max optimal (truncQ pool_mindiff)
  let o2 := max o1 (truncQ worker_mindiff)
  if 0 < pool_maxdiff then min o2 (truncQ pool_maxdiff) else o2

/-! ### Pool difficulty normalisation.

`normalize_pool_diff` lives in libckpool.c, which is not part of the sources
here; only its unit-test table (tests/unit/test-difficulty.c) is.

Modelled from the spec: the body of `normalize_pool_diff` is missing from the
sources; per the spec it returns `x` unchanged for `x < 1.0` and `round(x)`
(C `round`: halves away from zero, which for nonnegative input is
`⌊x + 1/2⌋`) for `x ≥ 1.0`, matching every row of the unit-test table. -/
def normalize_pool_diff (x : ℚ) : ℚ :=
  if x < 1 then x else ((⌊x + 1/2⌋ : ℤ) : ℚ)

/-! ### Password-embedded difficulty parsing
    (tests/unit/test-password-diff.c, parse_password_diff, mirroring
    stratifier.c parse_authorise).

The C strings are embedded as `List Char` (`Option` distinguishes NULL);
the libc `strtod` is modelled for C-locale decimal input: optional leading
whitespace, optional sign, decimal mantissa with optional fraction and
optional exponent (an exponent marker without digits is not consumed),
case-insensitive inf/infinity/nan forms.  IEEE rounding is abstracted to
exact rationals; double overflow surfaces as a non-finite result and total
underflow as zero, with the cutoffs 2^1024 and 2^(-1075).  Hexadecimal
float forms are not modelled. -/

/-- The characters the parser trims at the edges: `' '` and `'\t'`. -/
def isSTc (c : Char) : Bool :=
  c == ' ' || c == '\t'

/-- C-locale `isspace`. -/
def isspaceC (c : Char) : Bool :=
  c == ' ' || c == '\t' || c == '\n' || c == '\x0b' || c == '\x0c' || c == '\r'

/-- ASCII lower-casing of a single character. -/
def lowerC (c : Char) : Char :=
  if 'A' ≤ c ∧ c ≤ 'Z' then Char.ofNat (c.toNat + 32) else c

/-- Numeric value of a digit string. -/
def natFromDigits (l : List Char) : ℕ :=
  l.foldl (fun a c => 10 * a + (c.toNat - ('0').toNat)) 0

/-- Remove trailing spaces and tabs. -/
def dropTrailingST (l : List Char) : List Char :=
  (l.reverse.dropWhile isSTc).reverse

/-- Edge-trim: leading then trailing spaces and tabs, as in the C copy/trim code. -/
def trimST (l : List Char) : List Char :=
  dropTrailingST (l.dropWhile isSTc)

/-- Index of the first occurrence of the 5-character pattern `diff=` (C `strstr`). -/
def findDiffEq : List Char → Option ℕ
  | [] => none
  | c :: cs =>
    if (c :: cs).take 5 = ['d', 'i', 'f', 'f', '='] then some 0
    else (findDiffEq cs).map (fun n => n + 1)

/-- Whether the value text starts with a space or tab (the rejected `diff= 1` shape). -/
def headIsST : List Char → Bool
  | [] => false
  | c :: _ => isSTc c

/-- Result of the strtod model: parsed value, double-finiteness, unconsumed tail. -/
structure StrtodOut where
  value : ℚ
  finite : Bool
  rest : List Char
  deriving DecidableEq, Repr

/-- C-locale decimal `strtod` model; `none` when no conversion is performed. -/
def strtodQ (s : List Char) : Option StrtodOut :=
  let s1 := s.dropWhile isspaceC
  let sgn : ℚ := match s1 with
    | '-' :: _ => -1
    | _ => 1
  let s2 : List Char := match s1 with
    | '+' :: r => r
    | '-' :: r => r
    | r => r
  if (s2.take 3).map lowerC = ['i', 'n', 'f'] then
    if (s2.take 8).map lowerC = ['i', 'n', 'f', 'i', 'n', 'i', 't', 'y'] then
      some ⟨0, false, s2.drop 8⟩
    else some ⟨0, false, s2.drop 3⟩
  else if (s2.take 3).map lowerC = ['n', 'a', 'n'] then
    some ⟨0, false, s2.drop 3⟩
  else
    let ip := s2.takeWhile Char.isDigit
    let s3 := s2.drop ip.length
    let fp : List Char := match s3 with
      | '.' :: r => r.takeWhile Char.isDigit
      | _ => []
    let s4 : List Char := match s3 with
      | '.' :: r => r.drop (r.takeWhile Char.isDigit).length
      | r => r
    if ip = [] ∧ fp = [] then none
    else
      let mant : ℚ :=
        sgn * ((natFromDigits ip : ℚ) + (natFromDigits fp : ℚ) / (10 : ℚ) ^ fp.length)
      let stepExp : ℚ × List Char :=
        match s4 with
        | c :: r =>
          if c = 'e' ∨ c = 'E' then
            let epos : Bool := match r with
              | '-' :: _ => false
              | _ => true
            let r2 : List Char := match r with
              | '+' :: rr => rr
              | '-' :: rr => rr
              | rr => rr
            let ed := r2.takeWhile Char.isDigit
            if ed = [] then (mant, c :: r)
            else if epos then (mant * (10 : ℚ) ^ natFromDigits ed, r2.drop ed.length)
            else (mant / (10 : ℚ) ^ natFromDigits ed, r2.drop ed.length)
          else (mant, c :: r)
        | [] => (mant, [])
      if (2 : ℚ) ^ 1024 ≤ stepExp.1 ∨ stepExp.1 ≤ -((2 : ℚ) ^ 1024) then
        some ⟨0, false, stepExp.2⟩
      else if stepExp.1 ≠ 0 ∧ -(((2 : ℚ) ^ 1075)⁻¹) < stepExp.1 ∧
          stepExp.1 < ((2 : ℚ) ^ 1075)⁻¹ then
        some ⟨0, true, stepExp.2⟩
      else some ⟨stepExp.1, true, stepExp.2⟩

/-- The check `*endptr == 0 || *endptr == ','`: the only delimiters accepted after the
    number. -/
def delimOk : List Char → Bool
  | [] => true
  | c :: _ => c == ','

/-- Value extraction and delimiter validation after `diff=`:
    `strtod`, then reject non-finite values and anything not followed by
    end-of-string or a comma. -/
def strtodCheck (value : List Char) : ℚ :=
  match strtodQ value with
  | none => 0
  | some r => if r.finite && delimOk r.rest then r.value else 0

/-- The `pass_diff` computed from the trimmed password: first `diff=`
    occurrence, word-boundary check (start-of-string or comma), rejection of a
    space/tab right after `=`, then value extraction. -/
def diffTokenValue (t : List Char) : ℚ :=
  match findDiffEq t with
  | none => 0
  | some i =>
    if i = 0 ∨ t[i - 1]? = some ',' then
      if headIsST (t.drop (i + 5)) then 0
      else strtodCheck (t.drop (i + 5))
    else 0

/-- Final clamping: a positive parsed value is raised to `mindiff`; everything
    else yields 0. -/
def clampPos (v md : ℚ) : ℚ :=
  if 0 < v then (if v < md then md else v) else 0

/-- Password difficulty parsing, from tests/unit/test-password-diff.c
    (`parse_password_diff`, the mindiff-only variant of the stratifier's
    parse_authorise logic). -/
def parse_password_diff (password : Option (List Char)) (mindiff : ℚ) : ℚ :=
  match password with
  | none => 0
  | some l =>
    if l = [] then 0
    else if trimST l = [] then 0
    else clampPos (diffTokenValue (trimST l)) mindiff

/-! ### User-agent normalisation (src/ua_utils.c) and worker user-agent
    recalculation (src/worker_ua.c).

C strings are `List Char`; a worker's `useragent` is `Option (List Char)`
(`none` for NULL); a client's user-agent is `List Char` with `[]` standing for
both NULL and the empty string, which the C treats identically here.  The
`len` parameter is the destination buffer size (the stratifier uses
`UA_TRUNCATE_LEN + 1 = 65`). -/

/-- The literal `"Other"` (UA_OTHER). -/
def UA_OTHER : List Char := ['O', 't', 'h', 'e', 'r']

/-- Strip trailing C whitespace, as the final loop of `normalize_ua_buf` does. -/
def dropTrailingWsC (l : List Char) : List Char :=
  (l.reverse.dropWhile isspaceC).reverse

/-- The function `normalize_ua_buf(src, dst, len)`: skip leading whitespace, copy until the
    first `/` or `(` or until `len - 1` characters, then strip trailing
    whitespace.  NULL source or a non-positive size yields the empty string. -/
def normalize_ua_buf (src : Option (List Char)) (len : ℕ) : List Char :=
  match len with
  | 0 => []
  | Nat.succ n =>
    match src with
    | none => []
    | some s =>
      dropTrailingWsC
        (((s.dropWhile isspaceC).takeWhile (fun c => ¬(c = '/' ∨ c = '('))).take n)

/-- The function `get_normalized_ua_key`: the normalised UA, or `"Other"` when it is empty. -/
def get_normalized_ua_key (useragent : Option (List Char)) (len : ℕ) : List Char :=
  if normalize_ua_buf useragent len = [] then UA_OTHER
  else normalize_ua_buf useragent len

/-- UA normalisation as the spec words it: trim edge whitespace and cut at the
    first `/` or `(`, preserving case and internal spaces of what remains.
    Stated for comparison with the buffer-bounded `normalize_ua_buf`. -/
def uaSpecNormalize (s : List Char) : List Char :=
  dropTrailingWsC ((s.dropWhile isspaceC).takeWhile (fun c => ¬(c = '/' ∨ c = '(')))

/-- A client bound (or not) to the worker under recalculation. -/
structure ClientInst where
  attached : Bool
  useragent : List Char
  deriving DecidableEq, Repr

/-- The worker fields touched by `recalc_worker_useragent`. -/
structure WorkerInst where
  useragent : Option (List Char)
  norm_useragent : List Char
  instance_count : ℕ
  deriving DecidableEq, Repr

/-- The `DL_FOREACH2` scan for the first client whose `worker_instance` is the
    worker being recalculated. -/
def findAttachedClient : List ClientInst → Option ClientInst
  | [] => none
  | c :: cs => if c.attached then some c else findAttachedClient cs

/-- The function `recalc_worker_useragent`: keep the persisted UA when no clients are
    attached, set the generic token `"Other"` when several are, otherwise
    mirror the single attached client's UA (empty string when the client has
    none). -/
def recalc_worker_useragent (clients : List ClientInst) (w : WorkerInst) : WorkerInst :=
  if w.instance_count = 0 then w
  else if 1 < w.instance_count then
    if w.useragent ≠ some UA_OTHER then
      { w with useragent := some UA_OTHER, norm_useragent := UA_OTHER }
    else w
  else
    match findAttachedClient clients with
    | some c =>
      if c.useragent ≠ [] then
        { w with useragent := some c.useragent,
                 norm_useragent := normalize_ua_buf (some c.useragent) 65 }
      else { w with useragent := some [], norm_useragent := [] }
    | none => { w with useragent := some [], norm_useragent := [] }

/-! ### Vardiff time bias (tests/unit/test-adjustment-hysteresis.c, calculate_time_bias) -/

/-- The bias `dexp = tdiff / period; if (dexp > 36.0) dexp = 36.0; return 1.0 - 1.0 / exp(dexp);`. -/
noncomputable def time_bias (tdiff period : ℝ) : ℝ :=
  1 - 1 / Real.exp (min (tdiff / period) 36)

/-! ### Theorems -/

/-- C1: for every client and share, the difficulty used is `client.diff` when the
    share's job id is at least `diff_change_job_id` and `client.old_diff` otherwise;
    a job id exactly equal to `diff_change_job_id` selects the new difficulty. -/
theorem share_diff_selection (c : ClientDiffState) (j : ℤ) :
    (c.diff_change_job_id ≤ j →
      used_share_diff c j = c.diff ∧
      evaluate_share_diff j c.diff_change_job_id = .usesNewDiff) ∧
    (j < c.diff_change_job_id →
      used_share_diff c j = c.old_diff ∧
      evaluate_share_diff j c.diff_change_job_id = .usesOldDiff) ∧
    used_share_diff c c.diff_change_job_id = c.diff ∧
    evaluate_share_diff c.diff_change_job_id c.diff_change_job_id = .usesNewDiff := by
  refine ⟨fun h => ?_, fun h => ?_, ?_, ?_⟩
  · rw [used_share_diff, evaluate_share_diff, if_neg (not_lt.mpr h), if_neg (not_lt.mpr h)]
    exact ⟨rfl, rfl⟩
  · rw [used_share_diff, evaluate_share_diff, if_pos h, if_pos h]
    exact ⟨rfl, rfl⟩
  · rw [used_share_diff, if_neg (lt_irrefl _)]
  · rw [evaluate_share_diff, if_neg (lt_irrefl _)]

/-- C1 witness: concrete client with diff 200, old diff 42, change job id 100. -/
theorem share_diff_selection_witness :
    ((100 : ℤ) ≤ 100 ∧
      used_share_diff ⟨200, 42, 100⟩ 100 = 200 ∧
      evaluate_share_diff 100 100 = .usesNewDiff) ∧
    ((99 : ℤ) < 100 ∧
      used_share_diff ⟨200, 42, 100⟩ 99 = 42 ∧
      evaluate_share_diff 99 100 = .usesOldDiff) := by
  have h₁ := (share_diff_selection ⟨200, 42, 100⟩ 100).1 (by decide)
  have h₂ := (share_diff_selection ⟨200, 42, 100⟩ 99).2.1 (by decide)
  exact ⟨⟨by decide, h₁.1, h₁.2⟩, ⟨by decide, h₂.1, h₂.2⟩⟩

/-- C4: the registry entry is removed exactly when the client is dropped, the
    connector has no matching id and the observed refcount is exactly 1; a drop
    message is sent exactly when the client is dropped and the connector still
    knows the id; with refcount 2 the entry stays and no drop is emitted. -/
theorem zombie_cleanup_decision (d e : Bool) (r : ℤ) :
    (shouldCleanup d e r = true ↔ d = true ∧ e = false ∧ r = 1) ∧
    (shouldSendDrop d e = true ↔ d = true ∧ e = true) ∧
    shouldCleanup true false 1 = true ∧
    shouldCleanup true false 2 = false ∧
    shouldSendDrop true false = false := by
  refine ⟨?_, ?_, by decide, by decide, by decide⟩
  · rw [shouldCleanup]
    cases d <;> cases e <;> simp
  · rw [shouldSendDrop]
    cases d <;> cases e <;> simp

/-- C6: with `allow_low_diff` false a network difficulty below 1.0 (including 0)
    is clamped to 1.0; in every other case (flag true, or difficulty at least 1.0)
    the raw value passes through unchanged. -/
theorem network_diff_floor (d : ℚ) (a : Bool) :
    (a = false → d < 1 → apply_network_diff_floor d a = 1) ∧
    (a = true → apply_network_diff_floor d a = d) ∧
    (1 ≤ d → apply_network_diff_floor d a = d) ∧
    apply_network_diff_floor 0 false = 1 ∧
    apply_network_diff_floor 0 true = 0 := by
  refine ⟨fun ha hd => ?_, fun ha => ?_, fun hd => ?_, by decide, by decide⟩
  · rw [apply_network_diff_floor, if_pos ⟨by simp [ha], hd⟩]
  · rw [apply_network_diff_floor, if_neg]
    simp [ha]
  · rw [apply_network_diff_floor, if_neg]
    intro h
    exact absurd hd (not_le.mpr h.2)

/-- C6 witness: difficulty 1/2 is clamped to 1 under the false flag and passes
    through under the true flag; difficulty 3 passes through under the false flag. -/
theorem network_diff_floor_witness :
    apply_network_diff_floor (1/2) false = 1 ∧
    apply_network_diff_floor (1/2) true = 1/2 ∧
    apply_network_diff_floor 3 false = 3 := by
  refine ⟨(network_diff_floor (1/2) false).1 rfl (by norm_num),
    (network_diff_floor (1/2) true).2.1 rfl,
    (network_diff_floor 3 false).2.2.1 (by norm_num)⟩

/-! Helper lemmas for the password-diff parser. -/

/-- The C mindiff clamp `if (sdiff < mindiff) sdiff = mindiff` is a max. -/
theorem max_if_lt (v md : ℚ) : (if v < md then md else v) = max v md := by
  rcases lt_or_le v md with h | h
  · rw [if_pos h, max_eq_right h.le]
  · rw [if_neg (not_lt.mpr h), max_eq_left h]

/-- A positive parsed value is clamped up to mindiff. -/
theorem clampPos_of_pos (v md : ℚ) (h : 0 < v) : clampPos v md = max v md := by
  rw [clampPos, if_pos h, max_if_lt]

/-- A non-positive parsed value yields 0. -/
theorem clampPos_of_nonpos (v md : ℚ) (h : ¬0 < v) : clampPos v md = 0 := by
  rw [clampPos, if_neg h]

/-- The clamp output is positive exactly when the parsed value is. -/
theorem clampPos_pos_iff (v md : ℚ) : 0 < clampPos v md ↔ 0 < v := by
  constructor
  · intro h
    by_contra hv
    rw [clampPos_of_nonpos v md hv] at h
    exact lt_irrefl 0 h
  · intro hv
    rw [clampPos_of_pos v md hv]
    exact lt_of_lt_of_le hv (le_max_left _ _)

/-- The parser is the clamp of the token value extracted from the trimmed input. -/
theorem parse_password_diff_eq (l : List Char) (md : ℚ) :
    parse_password_diff (some l) md = clampPos (diffTokenValue (trimST l)) md := by
  have hd : diffTokenValue [] = 0 := rfl
  simp only [parse_password_diff]
  by_cases h0 : l = []
  · subst h0
    have ht : trimST ([] : List Char) = [] := rfl
    rw [if_pos rfl, ht, hd, clampPos_of_nonpos _ _ (lt_irrefl 0)]
  · rw [if_neg h0]
    by_cases ht : trimST l = []
    · rw [if_pos ht, ht, hd, clampPos_of_nonpos _ _ (lt_irrefl 0)]
    · rw [if_neg ht]

/-- Either value extraction fails (yielding 0) or the strtod result is finite
    and properly delimited and its value is returned. -/
theorem strtodCheck_cases (v : List Char) :
    strtodCheck v = 0 ∨
    ∃ r, strtodQ v = some r ∧ r.finite = true ∧
      (r.rest = [] ∨ r.rest.head? = some ',') ∧ strtodCheck v = r.value := by
  rcases hst : strtodQ v with _ | r
  · left
    simp [strtodCheck, hst]
  · have hb : strtodCheck v = if r.finite && delimOk r.rest then r.value else 0 := by
      simp [strtodCheck, hst]
    by_cases hcond : (r.finite && delimOk r.rest) = true
    · right
      obtain ⟨hf, hdel⟩ := Bool.and_eq_true_iff.mp hcond
      refine ⟨r, rfl, hf, ?_, by rw [hb, if_pos hcond]⟩
      rcases hrest : r.rest with _ | ⟨c, tl⟩
      · exact Or.inl rfl
      · right
        rw [hrest] at hdel
        have : c = ',' := by simpa [delimOk] using hdel
        rw [this]
        rfl
    · left
      rw [hb, if_neg hcond]

/-- Unfolding of `diffTokenValue` once the first occurrence index is known. -/
theorem diffTokenValue_body (t : List Char) (i : ℕ) (hfd : findDiffEq t = some i) :
    diffTokenValue t =
      if i = 0 ∨ t[i - 1]? = some ',' then
        if headIsST (t.drop (i + 5)) = true then 0
        else strtodCheck (t.drop (i + 5))
      else 0 := by
  simp [diffTokenValue, hfd]

/-- An invalid word boundary at the first occurrence forces the token value to 0. -/
theorem diffTokenValue_of_bad_boundary (t : List Char) (i : ℕ)
    (hfd : findDiffEq t = some i) (hpre : ¬(i = 0 ∨ t[i - 1]? = some ',')) :
    diffTokenValue t = 0 := by
  rw [diffTokenValue_body t i hfd, if_neg hpre]

/-- With a valid first occurrence, the token value is the value extraction of
    that occurrence's value text. -/
theorem diffTokenValue_of_good_boundary (t : List Char) (i : ℕ)
    (hfd : findDiffEq t = some i) (hpre : i = 0 ∨ t[i - 1]? = some ',')
    (hh : headIsST (t.drop (i + 5)) = false) :
    diffTokenValue t = strtodCheck (t.drop (i + 5)) := by
  rw [diffTokenValue_body t i hfd, if_pos hpre, hh, if_neg Bool.false_ne_true]

/-- Either the token value is 0, or the first `diff=` occurrence passes the
    word-boundary and no-space checks and the value comes from its value text. -/
theorem diffTokenValue_cases (t : List Char) :
    diffTokenValue t = 0 ∨
    ∃ i, findDiffEq t = some i ∧ (i = 0 ∨ t[i - 1]? = some ',') ∧
      headIsST (t.drop (i + 5)) = false ∧
      diffTokenValue t = strtodCheck (t.drop (i + 5)) := by
  rcases hfd : findDiffEq t with _ | i
  · left
    simp [diffTokenValue, hfd]
  · by_cases hpre : i = 0 ∨ t[i - 1]? = some ','
    · cases hh : headIsST (t.drop (i + 5)) with
      | false =>
        right
        exact ⟨i, rfl, hpre, hh, diffTokenValue_of_good_boundary t i hfd hpre hh⟩
      | true =>
        left
        rw [diffTokenValue_body t i hfd, if_pos hpre, hh, if_pos rfl]
    · left
      exact diffTokenValue_of_bad_boundary t i hfd hpre

/-- The search `findDiffEq` locates the first occurrence of the pattern: the pattern sits
    at the returned index and at no earlier index. -/
theorem findDiffEq_first (t : List Char) (i : ℕ) (h : findDiffEq t = some i) :
    (t.drop i).take 5 = ['d', 'i', 'f', 'f', '='] ∧
    ∀ j, j < i → (t.drop j).take 5 ≠ ['d', 'i', 'f', 'f', '='] := by
  induction t generalizing i with
  | nil => simp [findDiffEq] at h
  | cons c cs ih =>
    rw [findDiffEq] at h
    by_cases hc : (c :: cs).take 5 = ['d', 'i', 'f', 'f', '=']
    · rw [if_pos hc] at h
      have hi : i = 0 := by
        cases h
        rfl
      subst hi
      exact ⟨hc, fun j hj => absurd hj (Nat.not_lt_zero j)⟩
    · rw [if_neg hc] at h
      rcases hfd : findDiffEq cs with _ | k
      · rw [hfd] at h
        simp at h
      · rw [hfd] at h
        simp at h
        obtain ⟨h1, h2⟩ := ih k hfd
        subst h
        refine ⟨by rw [List.drop_succ_cons]; exact h1, fun j hj => ?_⟩
        cases j with
        | zero => simpa using hc
        | succ j2 =>
          rw [List.drop_succ_cons]
          exact h2 j2 (by omega)

/-- C3: a `diff=` token is accepted only when, on the edge-trimmed password,
    its first occurrence is preceded by start-of-string or a comma, no space or
    tab follows the `=`, and the parsed value is finite, strictly positive, and
    followed only by end-of-string or a comma; an accepted value is clamped up
    to mindiff and every other input yields 0.  Concretely, `xdiff=0.1` yields
    0, `,diff=0.1` yields 0.1, `diff= 1` yields 0 and `diff=1 ,x` yields 0. -/
theorem password_diff_accept (l : List Char) (md : ℚ) :
    (0 < parse_password_diff (some l) md ↔
      ∃ i r, findDiffEq (trimST l) = some i ∧
        (i = 0 ∨ (trimST l)[i - 1]? = some ',') ∧
        headIsST ((trimST l).drop (i + 5)) = false ∧
        strtodQ ((trimST l).drop (i + 5)) = some r ∧
        r.finite = true ∧ 0 < r.value ∧
        (r.rest = [] ∨ r.rest.head? = some ',') ∧
        parse_password_diff (some l) md = max r.value md) ∧
    (parse_password_diff (some l) md = 0 ∨ 0 < parse_password_diff (some l) md) ∧
    parse_password_diff (some (String.toList "xdiff=0.1")) (1/1000) = 0 ∧
    parse_password_diff (some (String.toList ",diff=0.1")) (1/1000) = 1/10 ∧
    parse_password_diff (some (String.toList "diff= 1")) 1 = 0 ∧
    parse_password_diff (some (String.toList "diff=1 ,x")) 1 = 0 := by
  refine ⟨⟨fun h => ?_, fun h => ?_⟩, ?_, ?_, ?_, ?_, ?_⟩
  · rw [parse_password_diff_eq] at h
    have h0 : 0 < diffTokenValue (trimST l) := (clampPos_pos_iff _ _).mp h
    rcases diffTokenValue_cases (trimST l) with hz | ⟨i, hfd, hpre, hh, heq⟩
    · rw [hz] at h0
      exact absurd h0 (lt_irrefl 0)
    · rw [heq] at h0
      rcases strtodCheck_cases ((trimST l).drop (i + 5)) with hz | ⟨r, hst, hf, hrest, hval⟩
      · rw [hz] at h0
        exact absurd h0 (lt_irrefl 0)
      · have hrv : 0 < r.value := by rw [hval] at h0; exact h0
        refine ⟨i, r, hfd, hpre, hh, hst, hf, hrv, hrest, ?_⟩
        rw [parse_password_diff_eq, heq, hval, clampPos_of_pos _ _ hrv]
  · obtain ⟨i, r, hfd, hpre, hh, hst, hf, hrv, hrest, hfinal⟩ := h
    rw [hfinal]
    exact lt_of_lt_of_le hrv (le_max_left _ _)
  · rw [parse_password_diff_eq]
    by_cases h : 0 < diffTokenValue (trimST l)
    · right
      exact (clampPos_pos_iff _ _).mpr h
    · left
      exact clampPos_of_nonpos _ _ h
  · simp [parse_password_diff, trimST, dropTrailingST, isSTc, findDiffEq, diffTokenValue,
      headIsST, strtodCheck, delimOk, strtodQ, isspaceC, lowerC, natFromDigits, clampPos] <;>
      norm_num <;> decide
  · simp [parse_password_diff, trimST, dropTrailingST, isSTc, findDiffEq, diffTokenValue,
      headIsST, strtodCheck, delimOk, strtodQ, isspaceC, lowerC, natFromDigits, clampPos] <;>
      norm_num <;> decide
  · simp [parse_password_diff, trimST, dropTrailingST, isSTc, findDiffEq, diffTokenValue,
      headIsST, strtodCheck, delimOk, strtodQ, isspaceC, lowerC, natFromDigits, clampPos] <;>
      norm_num <;> decide
  · simp [parse_password_diff, trimST, dropTrailingST, isSTc, findDiffEq, diffTokenValue,
      headIsST, strtodCheck, delimOk, strtodQ, isspaceC, lowerC, natFromDigits, clampPos] <;>
      norm_num <;> decide

/-- C10: the parser only ever considers the first (leftmost) `diff=`
    occurrence: `findDiffEq` returns the first match, a bad word boundary there
    yields 0 no matter what follows, and with a good boundary the result is
    fully determined by that occurrence's value text.  Concretely,
    `comment="diff=999",diff=25` yields 0 and `diff=.1,diff=1` yields 0.1. -/
theorem password_diff_first_only :
    (∀ t i, findDiffEq t = some i →
      (t.drop i).take 5 = ['d', 'i', 'f', 'f', '='] ∧
      ∀ j, j < i → (t.drop j).take 5 ≠ ['d', 'i', 'f', 'f', '=']) ∧
    (∀ (l : List Char) (md : ℚ) (i : ℕ), findDiffEq (trimST l) = some i →
      ¬(i = 0 ∨ (trimST l)[i - 1]? = some ',') →
      parse_password_diff (some l) md = 0) ∧
    (∀ (l : List Char) (md : ℚ) (i : ℕ), findDiffEq (trimST l) = some i →
      (i = 0 ∨ (trimST l)[i - 1]? = some ',') →
      headIsST ((trimST l).drop (i + 5)) = false →
      parse_password_diff (some l) md =
        clampPos (strtodCheck ((trimST l).drop (i + 5))) md) ∧
    parse_password_diff (some (String.toList "comment=\"diff=999\",diff=25")) 1 = 0 ∧
    parse_password_diff (some (String.toList "diff=.1,diff=1")) (1/1000) = 1/10 := by
  refine ⟨findDiffEq_first, fun l md i hfd hpre => ?_, fun l md i hfd hpre hh => ?_, ?_, ?_⟩
  · rw [parse_password_diff_eq, diffTokenValue_of_bad_boundary _ _ hfd hpre,
      clampPos_of_nonpos _ _ (lt_irrefl 0)]
  · rw [parse_password_diff_eq, diffTokenValue_of_good_boundary _ _ hfd hpre hh]
  · simp [parse_password_diff, trimST, dropTrailingST, isSTc, findDiffEq, diffTokenValue,
      headIsST, strtodCheck, delimOk, strtodQ, isspaceC, lowerC, natFromDigits, clampPos] <;>
      norm_num <;> decide
  · simp [parse_password_diff, trimST, dropTrailingST, isSTc, findDiffEq, diffTokenValue,
      headIsST, strtodCheck, delimOk, strtodQ, isspaceC, lowerC, natFromDigits, clampPos] <;>
      norm_num <;> decide

/-- C10 witness: on `xdiff=1` the first occurrence is at index 1, its boundary
    character is `x` (invalid), and the parser yields 0. -/
theorem password_diff_first_only_witness :
    findDiffEq (trimST (String.toList "xdiff=1")) = some 1 ∧
    ¬((1 : ℕ) = 0 ∨ (trimST (String.toList "xdiff=1"))[1 - 1]? = some ',') ∧
    parse_password_diff (some (String.toList "xdiff=1")) 1 = 0 := by
  have h1 : findDiffEq (trimST (String.toList "xdiff=1")) = some 1 := by decide
  have h2 : ¬((1 : ℕ) = 0 ∨ (trimST (String.toList "xdiff=1"))[1 - 1]? = some ',') := by
    decide
  exact ⟨h1, h2, password_diff_first_only.2.1 (String.toList "xdiff=1") 1 1 h1 h2⟩

/-- C2 counterexample: with optimal 1000, pool mindiff 1, worker mindiff 1,
    pool maxdiff 500 and network difficulty 100, the code's clamp sequence
    commits 100 — the network difficulty acted as a ceiling — while a clamp
    bounded above only by pool maxdiff would commit 500. -/
theorem vardiff_network_ceiling_counterexample :
    clampOptimal 1000 1 1 500 100 = 100 ∧
    clampOptimalClaim 1000 1 1 500 = 500 ∧
    clampOptimal 1000 1 1 500 100 < clampOptimalClaim 1000 1 1 500 := by
  refine ⟨by decide, by decide, by decide⟩

/-- C2 (amended): the vardiff clamp step bounds the optimal difficulty below by
    pool and worker mindiff, above by pool maxdiff (when positive) **and** by the
    network difficulty: the committed value is the mindiff/maxdiff-clamped value
    capped at the (truncated) network difficulty, so it never exceeds it. -/
theorem vardiff_clamp_network_capped
    (optimal : ℤ) (pool_mindiff worker_mindiff pool_maxdiff network_diff : ℚ) :
    clampOptimal optimal pool_mindiff worker_mindiff pool_maxdiff network_diff =
      min (clampOptimalClaim optimal pool_mindiff worker_mindiff pool_maxdiff)
        (truncQ network_diff) ∧
    clampOptimal optimal pool_mindiff worker_mindiff pool_maxdiff network_diff ≤
      truncQ network_diff := by
  refine ⟨rfl, min_le_right _ _⟩

/-- C5: `normalize_pool_diff` keeps values below 1.0 unchanged, rounds values at
    least 1.0 to the nearest whole number (halves up: 1.4 → 1, 1.5 → 2,
    153.6176 → 154), and is idempotent on every nonnegative input. -/
theorem normalize_pool_diff_spec (x : ℚ) (hx : 0 ≤ x) :
    (x < 1 → normalize_pool_diff x = x) ∧
    (1 ≤ x → normalize_pool_diff x = ((⌊x + 1/2⌋ : ℤ) : ℚ) ∧
      |normalize_pool_diff x - x| ≤ 1/2) ∧
    normalize_pool_diff (normalize_pool_diff x) = normalize_pool_diff x ∧
    normalize_pool_diff (7/5) = 1 ∧
    normalize_pool_diff (3/2) = 2 ∧
    normalize_pool_diff (1536176/10000) = 154 := by
  have hhalf : ⌊(1/2 : ℚ)⌋ = 0 := by
    rw [Int.floor_eq_zero_iff]
    constructor <;> norm_num
  refine ⟨fun h => ?_, fun h => ?_, ?_, ?_, ?_, ?_⟩
  · rw [normalize_pool_diff, if_pos h]
  · have heq : normalize_pool_diff x = ((⌊x + 1/2⌋ : ℤ) : ℚ) := by
      rw [normalize_pool_diff, if_neg (not_lt.mpr h)]
    refine ⟨heq, ?_⟩
    rw [heq]
    have hub : ((⌊x + 1/2⌋ : ℤ) : ℚ) ≤ x + 1/2 := Int.floor_le _
    have hlb : x + 1/2 < ((⌊x + 1/2⌋ : ℤ) : ℚ) + 1 := Int.lt_floor_add_one _
    rw [abs_le]
    constructor <;> linarith
  · by_cases h : x < 1
    · have hx1 : normalize_pool_diff x = x := by rw [normalize_pool_diff, if_pos h]
      rw [hx1]
      exact hx1
    · have h1 : (1 : ℚ) ≤ x := not_lt.mp h
      have heq : normalize_pool_diff x = ((⌊x + 1/2⌋ : ℤ) : ℚ) := by
        rw [normalize_pool_diff, if_neg h]
      have hge : (1 : ℤ) ≤ ⌊x + 1/2⌋ := by
        rw [Int.le_floor]
        push_cast
        linarith
      have hge' : (1 : ℚ) ≤ ((⌊x + 1/2⌋ : ℤ) : ℚ) := by exact_mod_cast hge
      rw [heq, normalize_pool_diff, if_neg (not_lt.mpr hge')]
      congr 1
      rw [add_comm, Int.floor_add_int, hhalf, zero_add]
  · rw [normalize_pool_diff]
    norm_num [Int.floor_eq_iff]
  · rw [normalize_pool_diff]
    norm_num [Int.floor_eq_iff]
  · rw [normalize_pool_diff]
    norm_num [Int.floor_eq_iff]

/-- C5 witness: idempotence and rounding evaluated at the nonnegative input 1.5. -/
theorem normalize_pool_diff_spec_witness :
    (0 : ℚ) ≤ 3/2 ∧
    normalize_pool_diff (normalize_pool_diff (3/2)) = normalize_pool_diff (3/2) := by
  exact ⟨by norm_num, (normalize_pool_diff_spec (3/2) (by norm_num)).2.2.1⟩

/-- C8: UA normalisation trims edge whitespace, cuts at the first `/` or `(`
    and preserves what remains verbatim (given a buffer larger than the input);
    the stats key substitutes the literal `"Other"` exactly when the normalised
    result is empty, including NULL and whitespace-only inputs. -/
theorem ua_normalisation (ua : List Char) (len : ℕ) (hlen : ua.length < len) :
    normalize_ua_buf (some ua) len = uaSpecNormalize ua ∧
    (normalize_ua_buf (some ua) len = [] →
      get_normalized_ua_key (some ua) len = UA_OTHER) ∧
    (normalize_ua_buf (some ua) len ≠ [] →
      get_normalized_ua_key (some ua) len = normalize_ua_buf (some ua) len) ∧
    get_normalized_ua_key none len = UA_OTHER ∧
    (ua.all isspaceC = true → get_normalized_ua_key (some ua) len = UA_OTHER) := by
  obtain ⟨n, rfl⟩ : ∃ n, len = n + 1 := ⟨len - 1, by omega⟩
  have htake : ((ua.dropWhile isspaceC).takeWhile (fun c => ¬(c = '/' ∨ c = '('))).take n =
      (ua.dropWhile isspaceC).takeWhile (fun c => ¬(c = '/' ∨ c = '(')) := by
    apply List.take_of_length_le
    calc ((ua.dropWhile isspaceC).takeWhile (fun c => ¬(c = '/' ∨ c = '('))).length ≤
        (ua.dropWhile isspaceC).length := (List.takeWhile_sublist _).length_le
    _ ≤ ua.length := (List.dropWhile_sublist _).length_le
    _ ≤ n := by omega
  have hmain : normalize_ua_buf (some ua) (n + 1) = uaSpecNormalize ua := by
    simp only [normalize_ua_buf, uaSpecNormalize, htake]
  refine ⟨hmain, fun h => ?_, fun h => ?_, ?_, fun hws => ?_⟩
  · rw [get_normalized_ua_key, if_pos h]
  · rw [get_normalized_ua_key, if_neg h]
  · have hnone : normalize_ua_buf none (n + 1) = [] := rfl
    rw [get_normalized_ua_key, hnone, if_pos rfl]
  · have hdw : ua.dropWhile isspaceC = [] :=
      List.dropWhile_eq_nil_iff.mpr (fun x hx => List.all_eq_true.mp hws x hx)
    have hz : normalize_ua_buf (some ua) (n + 1) = [] := by
      simp [normalize_ua_buf, hdw, dropTrailingWsC]
    rw [get_normalized_ua_key, if_pos hz]

/-- C8 witness: a real UA with leading space, a slash and a parenthesised part
    normalises to its product name, and a whitespace-only UA keys as Other. -/
theorem ua_normalisation_witness :
    (String.toList " ccminer/3.8.0 (Linux)").length < 65 ∧
    normalize_ua_buf (some (String.toList " ccminer/3.8.0 (Linux)")) 65 =
      String.toList "ccminer" ∧
    get_normalized_ua_key (some (String.toList "   ")) 65 = UA_OTHER := by
  refine ⟨by decide, ?_, ?_⟩
  · rw [(ua_normalisation (String.toList " ccminer/3.8.0 (Linux)") 65 (by decide)).1]
    decide
  · exact (ua_normalisation (String.toList "   ") 65 (by decide)).2.2.2.2 (by decide)

/-- C7: after `recalc_worker_useragent`, a worker with no attached client keeps
    its persisted user-agent (the whole record is untouched), a worker with
    more than one attached client gets the literal `"Other"`, and a worker with
    exactly one attached client mirrors that client's user-agent. -/
theorem worker_ua_recalc (clients : List ClientInst) (w : WorkerInst) :
    (w.instance_count = 0 → recalc_worker_useragent clients w = w) ∧
    (1 < w.instance_count →
      (recalc_worker_useragent clients w).useragent = some UA_OTHER) ∧
    (w.instance_count = 1 → ∀ c, findAttachedClient clients = some c →
      (recalc_worker_useragent clients w).useragent = some c.useragent) := by
  refine ⟨fun h0 => ?_, fun h1 => ?_, fun h1 c hc => ?_⟩
  · rw [recalc_worker_useragent, if_pos h0]
  · have hne : w.instance_count ≠ 0 := by omega
    rw [recalc_worker_useragent, if_neg hne, if_pos h1]
    by_cases hua : w.useragent ≠ some UA_OTHER
    · rw [if_pos hua]
    · rw [if_neg hua]
      exact not_not.mp hua
  · have hne : w.instance_count ≠ 0 := by omega
    have hnl : ¬1 < w.instance_count := by omega
    rw [recalc_worker_useragent, if_neg hne, if_neg hnl]
    simp only [hc]
    by_cases hcu : c.useragent ≠ []
    · rw [if_pos hcu]
    · rw [if_neg hcu]
      have hce : c.useragent = [] := not_ne_iff.mp hcu
      rw [hce]

/-- C7 witness: a worker with one attached cgminer client mirrors its UA. -/
theorem worker_ua_recalc_witness :
    (WorkerInst.mk (some []) [] 1).instance_count = 1 ∧
    findAttachedClient [⟨true, String.toList "cgminer"⟩] =
      some ⟨true, String.toList "cgminer"⟩ ∧
    (recalc_worker_useragent [⟨true, String.toList "cgminer"⟩]
        ⟨some [], [], 1⟩).useragent = some (String.toList "cgminer") := by
  refine ⟨rfl, by decide, ?_⟩
  exact (worker_ua_recalc [⟨true, String.toList "cgminer"⟩] ⟨some [], [], 1⟩).2.2 rfl
    ⟨true, String.toList "cgminer"⟩ (by decide)

/-- C9: for tdiff ≥ 0 and period > 0 the time bias
    `1 − 1/exp(min(tdiff/period, 36))` lies in [0, 1) and is monotone
    non-decreasing in tdiff. -/
theorem time_bias_range_and_mono (tdiff period : ℝ) (ht : 0 ≤ tdiff) (hp : 0 < period) :
    (0 ≤ time_bias tdiff period ∧ time_bias tdiff period < 1) ∧
    ∀ t2, tdiff ≤ t2 → time_bias tdiff period ≤ time_bias t2 period := by
  have hd0 : 0 ≤ min (tdiff / period) 36 := le_min (div_nonneg ht hp.le) (by norm_num)
  have h1 : 1 ≤ Real.exp (min (tdiff / period) 36) := by
    calc (1 : ℝ) = Real.exp 0 := (Real.exp_zero).symm
    _ ≤ Real.exp (min (tdiff / period) 36) := Real.exp_le_exp.mpr hd0
  constructor
  · constructor
    · rw [time_bias, sub_nonneg]
      exact (div_le_one (Real.exp_pos _)).mpr h1
    · rw [time_bias]
      have : 0 < 1 / Real.exp (min (tdiff / period) 36) := by positivity
      linarith
  · intro t2 h12
    rw [time_bias, time_bias]
    have hdiv : tdiff / period ≤ t2 / period := (div_le_div_iff_of_pos_right hp).mpr h12
    have hmin : min (tdiff / period) 36 ≤ min (t2 / period) 36 := min_le_min hdiv le_rfl
    have hexp : Real.exp (min (tdiff / period) 36) ≤ Real.exp (min (t2 / period) 36) :=
      Real.exp_le_exp.mpr hmin
    have hinv : 1 / Real.exp (min (t2 / period) 36) ≤
        1 / Real.exp (min (tdiff / period) 36) :=
      one_div_le_one_div_of_le (Real.exp_pos _) hexp
    exact sub_le_sub_left hinv 1

/-- C9 witness: bounds at tdiff 3, period 1, and monotonicity toward tdiff 5. -/
theorem time_bias_range_and_mono_witness :
    (0 : ℝ) ≤ 3 ∧ (0 : ℝ) < 1 ∧
    (0 ≤ time_bias 3 1 ∧ time_bias 3 1 < 1) ∧
    time_bias 3 1 ≤ time_bias 5 1 := by
  have h := time_bias_range_and_mono 3 1 (by norm_num) (by norm_num)
  exact ⟨by norm_num, by norm_num, h.1, h.2 5 (by norm_num)⟩

end CkpoolLhr
